import Mathlib

/-
Verification of the mls-rs repository excerpt against its specification.

Shallow embedding of:
  * src/mls-rs/src/tree_kem/lifetime.rs (the Lifetime validity-window helper),
  * src/mls-rs-provider-sqlite/src/application.rs (the SQLite key-value
    application storage), and
  * the CommitApplier described in the spec (its code is not part of the
    sampled sources, so it is modelled from the spec's words).

Machine integers are modelled as Nat with explicit reduction modulo 2^w at
every point where the Rust code performs fixed-width arithmetic
(release-mode wrapping semantics).
-/

namespace Mls

def U64_MOD : Nat := 2 ^ 64

def U32_MOD : Nat := 2 ^ 32

/-- Modelled from the spec: `MlsTime` comes from the crate's time module,
which is not among the sampled sources.  Its use in `lifetime.rs`
(`seconds_since_epoch` feeding a `u64` `checked_add`, `MlsTime::from(u64)`,
`MlsTime - Duration`) fixes it as a count of seconds since the Unix epoch
carried as a `u64`. -/
structure MlsTime where
  seconds : Nat
deriving DecidableEq

/-- Error codomain of the Lifetime constructors (`MlsError::TimeOverflow`). -/
inductive MlsError where
  | timeOverflow
deriving DecidableEq

def MlsTime.seconds_since_epoch (t : MlsTime) : Nat := t.seconds

/-- Wrapping `u64` subtraction of `d` seconds, the release-mode semantics of
`MlsTime - Duration` used by `Lifetime::seconds` for the one-hour skew
adjustment. -/
def MlsTime.subSecs (t : MlsTime) (d : Nat) : MlsTime :=
  ⟨(t.seconds + (U64_MOD - d % U64_MOD)) % U64_MOD⟩

/-- `u64::checked_add`: `some` of the exact sum when it fits in 64 bits,
`none` on overflow. -/
def checkedAddU64 (a b : Nat) : Option Nat :=
  if a + b < U64_MOD then some (a + b) else none

/-- `Lifetime` from lifetime.rs: a not-before/not-after validity window. -/
structure Lifetime where
  not_before : MlsTime
  not_after : MlsTime
deriving DecidableEq

def Lifetime.new (nb na : MlsTime) : Lifetime := ⟨nb, na⟩

/-- `Lifetime::seconds(s, maybe_not_before)`.  The clock read that the `None`
branch performs (`MlsTime::now()`) is passed in as the explicit argument
`now`; the rest is a direct translation: pick the supplied not-before time if
present, `checked_add` the duration onto its seconds (erroring with
`TimeOverflow` on `u64` overflow), and return the window with one hour
subtracted at the front. -/
def Lifetime.seconds (now : MlsTime) (s : Nat) (maybe_not_before : Option MlsTime) :
    Except MlsError Lifetime :=
  let not_before :=
    match maybe_not_before with
    | some not_before_time => not_before_time
    | none => now
  match checkedAddU64 not_before.seconds_since_epoch s with
  | none => Except.error MlsError.timeOverflow
  | some na => Except.ok ⟨not_before.subSecs 3600, ⟨na⟩⟩

/-- `Lifetime::days(d, m) = Lifetime::seconds((d * 86400) as u64, m)`.
The multiplication `d * 86400` is performed on `u32` (`d : u32`) and only the
result is cast to `u64`, so it wraps modulo `2^32`. -/
def Lifetime.days (now : MlsTime) (d : Nat) (m : Option MlsTime) :
    Except MlsError Lifetime :=
  Lifetime.seconds now ((d * 86400) % U32_MOD) m

/-- `Lifetime::years(y, m) = Lifetime::days(365 * y as u32, m)` with the
multiplication performed on `u32`. -/
def Lifetime.years (now : MlsTime) (y : Nat) (m : Option MlsTime) :
    Except MlsError Lifetime :=
  Lifetime.days now ((365 * y) % U32_MOD) m

/-- `Lifetime::within_lifetime(time)`: `self.not_before <= time && time <=
self.not_after` (the derived order on `MlsTime` compares the seconds). -/
def Lifetime.within_lifetime (lt : Lifetime) (t : MlsTime) : Bool :=
  decide (lt.not_before.seconds ≤ t.seconds) && decide (t.seconds ≤ lt.not_after.seconds)

/-- C5: validity-window checking is a pure comparison: `within_lifetime t`
returns true exactly when `not_before ≤ t` and `t ≤ not_after`, both bounds
inclusive, depending on nothing but the two stored bounds and `t`. -/
theorem within_lifetime_iff (lt : Lifetime) (t : MlsTime) :
    lt.within_lifetime t = true ↔
      lt.not_before.seconds ≤ t.seconds ∧ t.seconds ≤ lt.not_after.seconds := by
  simp [Lifetime.within_lifetime]

/-- C2: for every `u64` duration `s` and every explicitly supplied not-before
time `t`, `Lifetime::seconds(s, Some(t))` returns `Err(TimeOverflow)` iff
adding `s` to `t`'s seconds-since-epoch overflows `u64`, and in all other
cases it returns `Ok`. -/
theorem seconds_err_iff_overflow (now : MlsTime) (s : Nat) (t : MlsTime) :
    (Lifetime.seconds now s (some t) = Except.error MlsError.timeOverflow ↔
      U64_MOD ≤ t.seconds + s)
    ∧ (t.seconds + s < U64_MOD →
        ∃ lt, Lifetime.seconds now s (some t) = Except.ok lt) := by
  unfold Lifetime.seconds checkedAddU64
  simp only [MlsTime.seconds_since_epoch]
  constructor
  · by_cases h : t.seconds + s < U64_MOD
    · rw [if_pos h]
      simp
      omega
    · rw [if_neg h]
      simp
      omega
  · intro h
    simp [h]

/-- Witness for C2 at concrete inputs: overflow at `t = 2^64 - 1, s = 1` and
success at `t = 10, s = 5`. -/
theorem seconds_err_iff_overflow_w :
    (Lifetime.seconds ⟨0⟩ 1 (some ⟨U64_MOD - 1⟩) = Except.error MlsError.timeOverflow)
    ∧ (∃ lt, Lifetime.seconds ⟨0⟩ 5 (some ⟨10⟩) = Except.ok lt) :=
  ⟨(seconds_err_iff_overflow ⟨0⟩ 1 ⟨U64_MOD - 1⟩).1.mpr (by norm_num [U64_MOD]),
   (seconds_err_iff_overflow ⟨0⟩ 5 ⟨10⟩).2 (by norm_num [U64_MOD])⟩

/-- C7: for every duration `s` and explicitly supplied not-before `t` of at
least 3600 seconds since the epoch, a successful `Lifetime::seconds(s,
Some(t))` yields `not_before = t - 3600` and `not_after = t + s`: the window
is one hour longer at the front than the supplied bound. -/
theorem seconds_explicit_window (now : MlsTime) (s : Nat) (t : MlsTime)
    (h1 : 3600 ≤ t.seconds) (h2 : t.seconds < U64_MOD) (h3 : t.seconds + s < U64_MOD) :
    Lifetime.seconds now s (some t) =
      Except.ok ⟨⟨t.seconds - 3600⟩, ⟨t.seconds + s⟩⟩ := by
  unfold Lifetime.seconds checkedAddU64 MlsTime.subSecs
  simp only [MlsTime.seconds_since_epoch, if_pos h3]
  have hmod : (t.seconds + (U64_MOD - 3600 % U64_MOD)) % U64_MOD = t.seconds - 3600 := by
    simp only [U64_MOD] at *
    omega
  rw [hmod]

/-- Witness for C7 at `t = 3600, s = 10`: the window is `[0, 3610]`. -/
theorem seconds_explicit_window_w :
    Lifetime.seconds ⟨0⟩ 10 (some ⟨3600⟩) = Except.ok ⟨⟨0⟩, ⟨3610⟩⟩ :=
  seconds_explicit_window ⟨0⟩ 10 ⟨3600⟩ (by norm_num) (by norm_num [U64_MOD])
    (by norm_num [U64_MOD])

/-- C1 counterexample: `Lifetime::days(49711, Some(t))` with `t = 3600`.
Computing the expiry bound 49711 days after `t` overflows the `u32`
multiplication `d * 86400` (49711 * 86400 = 4295030400 ≥ 2^32), yet the call
returns `Ok` with the wrapped-around bound `not_after = 66704` instead of
failing with `TimeOverflow` (the true expiry would be 3600 + 4295030400). -/
theorem days_wrapped_bound_cex :
    U32_MOD ≤ 49711 * 86400
    ∧ Lifetime.days ⟨0⟩ 49711 (some ⟨3600⟩) = Except.ok ⟨⟨0⟩, ⟨66704⟩⟩
    ∧ (3600 + 49711 * 86400 : Nat) ≠ 66704 := by
  refine ⟨by norm_num [U32_MOD], ?_, by norm_num⟩
  rfl

/-- C1 amended: `Lifetime::seconds` fails with `TimeOverflow` whenever the
`u64` addition computing `not_after` overflows (for a supplied not-before and
for the clock-supplied one alike); `Lifetime::days` and `Lifetime::years`
delegate to it through a `u32` multiplication that wraps on overflow before
the check, so they carry the same guarantee only while that multiplication
fits in `u32`: for `days d` when `d * 86400 < 2^32` and for `years y` when
`365 * y * 86400 < 2^32`. -/
theorem overflow_guard (now t : MlsTime) (s d y : Nat) :
    (U64_MOD ≤ t.seconds + s →
      Lifetime.seconds now s (some t) = Except.error MlsError.timeOverflow)
    ∧ (U64_MOD ≤ now.seconds + s →
      Lifetime.seconds now s none = Except.error MlsError.timeOverflow)
    ∧ (d * 86400 < U32_MOD → U64_MOD ≤ t.seconds + d * 86400 →
      Lifetime.days now d (some t) = Except.error MlsError.timeOverflow)
    ∧ (y < 256 → 365 * y * 86400 < U32_MOD → U64_MOD ≤ t.seconds + 365 * y * 86400 →
      Lifetime.years now y (some t) = Except.error MlsError.timeOverflow) := by
    refine ⟨?_, ?_, ?_, ?_⟩
    · intro h
      unfold Lifetime.seconds checkedAddU64
      simp only [MlsTime.seconds_since_epoch]
      rw [if_neg (by omega)]
    · intro h
      unfold Lifetime.seconds checkedAddU64
      simp only [MlsTime.seconds_since_epoch]
      rw [if_neg (by omega)]
    · intro hd h
      unfold Lifetime.days
      rw [Nat.mod_eq_of_lt hd]
      unfold Lifetime.seconds checkedAddU64
      simp only [MlsTime.seconds_since_epoch]
      rw [if_neg (by omega)]
    · intro hy hmul h
      have h365 : (365 * y) % U32_MOD = 365 * y := by
        apply Nat.mod_eq_of_lt
        simp only [U32_MOD] at *
        omega
      unfold Lifetime.years Lifetime.days
      rw [h365, Nat.mod_eq_of_lt (by omega : 365 * y * 86400 < U32_MOD)]
      unfold Lifetime.seconds checkedAddU64
      simp only [MlsTime.seconds_since_epoch]
      rw [if_neg (by omega)]

/-- Witness for C1's amended theorem: all four overflow cases at concrete
inputs with the clock or supplied bound at `2^64 - 1`. -/
theorem overflow_guard_w :
    (Lifetime.seconds ⟨0⟩ U64_MOD (some ⟨U64_MOD - 1⟩) = Except.error MlsError.timeOverflow)
    ∧ (Lifetime.seconds ⟨U64_MOD - 1⟩ U64_MOD none = Except.error MlsError.timeOverflow)
    ∧ (Lifetime.days ⟨0⟩ 1 (some ⟨U64_MOD - 1⟩) = Except.error MlsError.timeOverflow)
    ∧ (Lifetime.years ⟨0⟩ 1 (some ⟨U64_MOD - 1⟩) = Except.error MlsError.timeOverflow) :=
  ⟨(overflow_guard ⟨0⟩ ⟨U64_MOD - 1⟩ U64_MOD 0 0).1 (by norm_num [U64_MOD]),
   (overflow_guard ⟨U64_MOD - 1⟩ ⟨0⟩ U64_MOD 0 0).2.1 (by norm_num [U64_MOD]),
   (overflow_guard ⟨0⟩ ⟨U64_MOD - 1⟩ 0 1 0).2.2.1 (by norm_num [U32_MOD])
     (by norm_num [U64_MOD]),
   (overflow_guard ⟨0⟩ ⟨U64_MOD - 1⟩ 0 0 1).2.2.2 (by norm_num) (by norm_num [U32_MOD])
     (by norm_num [U64_MOD])⟩

/-
SQLite application key-value storage, src/mls-rs-provider-sqlite/src/application.rs.

The `kvs` table (key TEXT with a unique constraint, value BLOB) is modelled as
a list of `Item`s in row order; the SQL statements of application.rs are
translated row-wise.  Engine-level failures (I/O, locking) are environmental
and surface only where the code's control flow reacts to them
(`transact_insert`).
-/

/-- `Item` from application.rs: one key-value row. -/
structure Item where
  key : List Char
  value : List Nat
deriving DecidableEq

abbrev Store := List Item

/-- `get`: `SELECT value FROM kvs WHERE key = ?`, first matching row. -/
def kvGet : Store → List Char → Option (List Nat)
  | [], _ => none
  | it :: rest, k => if it.key = k then some it.value else kvGet rest k

/-- `insert`: `INSERT INTO kvs (key, value) VALUES (?,?) ON CONFLICT(key) DO
UPDATE SET value=excluded.value WHERE value != excluded.value`.  A fresh key
appends a row (1 row modified); a conflicting row is updated in place only
when the stored value differs (1 row modified), otherwise nothing changes
(0 rows modified).  Returns the updated store and the modified-row count. -/
def kvInsert : Store → List Char → List Nat → Store × Nat
  | [], k, v => ([⟨k, v⟩], 1)
  | it :: rest, k, v =>
    if it.key = k then
      if it.value = v then (it :: rest, 0) else (⟨k, v⟩ :: rest, 1)
    else
      let p := kvInsert rest k v
      (it :: p.1, p.2)

/-- `delete`: `DELETE FROM kvs WHERE key = ?`, returning the count of
deleted rows. -/
def kvDelete : Store → List Char → Store × Nat
  | [], _ => ([], 0)
  | it :: rest, k =>
    let p := kvDelete rest k
    if it.key = k then (p.1, p.2 + 1) else (it :: p.1, p.2)

/-- C3: the storage round-trips opaque byte blobs: after `insert(key, value)`
a `get(key)` returns `Some(value)` byte-for-byte, and after `delete(key)` a
`get(key)` returns `None`. -/
theorem kv_roundtrip (store : Store) (k : List Char) (v : List Nat) :
    kvGet (kvInsert store k v).1 k = some v
    ∧ kvGet (kvDelete store k).1 k = none := by
  constructor
  · induction store with
    | nil => simp [kvInsert, kvGet]
    | cons it rest ih =>
      by_cases hk : it.key = k
      · by_cases hv : it.value = v <;> simp [kvInsert, hk, hv, kvGet]
      · simp [kvInsert, hk, kvGet, ih]
  · induction store with
    | nil => simp [kvDelete, kvGet]
    | cons it rest ih =>
      by_cases hk : it.key = k <;> simp [kvDelete, hk, kvGet, ih]

/-- C8: `insert` is idempotent on identical pairs: re-inserting the stored
value returns 0 rows modified and leaves the whole store unchanged, while an
insert for an absent key or a differing value returns 1 row modified, makes
`get` return the new value, and leaves every other key's lookup unchanged. -/
theorem kv_insert_idempotent (store : Store) (k : List Char) (v : List Nat) :
    (kvGet store k = some v → kvInsert store k v = (store, 0))
    ∧ (kvGet store k = none →
        (kvInsert store k v).2 = 1
        ∧ kvGet (kvInsert store k v).1 k = some v
        ∧ ∀ k', k' ≠ k → kvGet (kvInsert store k v).1 k' = kvGet store k')
    ∧ (∀ w, kvGet store k = some w → w ≠ v →
        (kvInsert store k v).2 = 1
        ∧ kvGet (kvInsert store k v).1 k = some v
        ∧ ∀ k', k' ≠ k → kvGet (kvInsert store k v).1 k' = kvGet store k') := by
  refine ⟨?_, ?_, ?_⟩
  · intro h
    induction store with
    | nil => simp [kvGet] at h
    | cons it rest ih =>
      by_cases hk : it.key = k
      · simp [kvGet, hk] at h
        simp [kvInsert, hk, h]
      · simp [kvGet, hk] at h
        simp [kvInsert, hk, ih h]
  · intro h
    refine ⟨?_, (kv_roundtrip store k v).1, ?_⟩
    · induction store with
      | nil => simp [kvInsert]
      | cons it rest ih =>
        by_cases hk : it.key = k
        · simp [kvGet, hk] at h
        · simp [kvGet, hk] at h
          simp [kvInsert, hk, ih h]
    · intro k' hne
      induction store with
      | nil =>
        simp [kvInsert, kvGet]
        exact fun h' => hne h'.symm
      | cons it rest ih =>
        by_cases hk : it.key = k
        · simp [kvGet, hk] at h
        · simp [kvGet, hk] at h
          by_cases hk' : it.key = k'
          · simp [kvInsert, kvGet, hk, hk', hne]
          · simp [kvInsert, kvGet, hk, hk', ih h]
  · intro w hw hne
    refine ⟨?_, (kv_roundtrip store k v).1, ?_⟩
    · induction store with
      | nil => simp [kvGet] at hw
      | cons it rest ih =>
        by_cases hk : it.key = k
        · simp [kvGet, hk] at hw
          subst hw
          simp [kvInsert, hk, hne]
        · simp [kvGet, hk] at hw
          simp [kvInsert, hk, ih hw]
    · intro k' hk'ne
      induction store with
      | nil => simp [kvGet] at hw
      | cons it rest ih =>
        by_cases hk : it.key = k
        · simp [kvGet, hk] at hw
          subst hw
          have hnk : ¬ k = k' := fun h' => hk'ne h'.symm
          simp [kvInsert, hk, hne, kvGet, hnk]
        · simp [kvGet, hk] at hw
          by_cases hk' : it.key = k'
          · simp [kvInsert, kvGet, hk, hk', hk'ne]
          · simp [kvInsert, kvGet, hk, hk', ih hw]

/-- Witness for C8: the three branches at concrete single-row stores. -/
theorem kv_insert_idempotent_w :
    (kvInsert [⟨['a'], [1]⟩] ['a'] [1] = ([⟨['a'], [1]⟩], 0))
    ∧ ((kvInsert [] ['a'] [1]).2 = 1 ∧ kvGet (kvInsert [] ['a'] [1]).1 ['a'] = some [1])
    ∧ ((kvInsert [⟨['a'], [2]⟩] ['a'] [1]).2 = 1
        ∧ kvGet (kvInsert [⟨['a'], [2]⟩] ['a'] [1]).1 ['a'] = some [1]) :=
  ⟨(kv_insert_idempotent [⟨['a'], [1]⟩] ['a'] [1]).1 (by decide),
   ⟨((kv_insert_idempotent [] ['a'] [1]).2.1 (by decide)).1,
    ((kv_insert_idempotent [] ['a'] [1]).2.1 (by decide)).2.1⟩,
   ⟨((kv_insert_idempotent [⟨['a'], [2]⟩] ['a'] [1]).2.2 [2] (by decide) (by decide)).1,
    ((kv_insert_idempotent [⟨['a'], [2]⟩] ['a'] [1]).2.2 [2] (by decide) (by decide)).2.1⟩⟩

/-- Engine-level SQL failure (I/O, locking), an environmental event. -/
inductive SqlFailure where
  | engine
deriving DecidableEq

/-- Sequential upsert of a batch, the reference fold for `transact_insert`:
returns the final store and the sum of rows modified per item. -/
def kvInsertAll : Store → List Item → Store × Nat
  | st, [] => (st, 0)
  | st, it :: rest =>
    let p := kvInsert st it.key it.value
    let q := kvInsertAll p.1 rest
    (q.1, p.2 + q.2)

/-- The `try_fold` loop of `transact_insert`: executes the upserts one by one
against the transaction state `tx`, accumulating the modified-row count.
`failAt = some i` models the SQL engine failing on the `i`-th execute, after
which `?` propagates the error out of the fold. -/
def txGo (failAt : Option Nat) : Nat → Store → Nat → List Item → Except SqlFailure (Store × Nat)
  | _, tx, acc, [] => Except.ok (tx, acc)
  | i, tx, acc, it :: rest =>
    if failAt = some i then Except.error SqlFailure.engine
    else
      let p := kvInsert tx it.key it.value
      txGo failAt (i + 1) p.1 (acc + p.2) rest

/-- `transact_insert(items)`: writes run inside a transaction; when the fold
errors, the transaction is dropped without commit (rusqlite rolls back), so
the published connection state stays the pre-call store; on success the
commit publishes the transaction state.  Returns the published state and the
call's result. -/
def transactInsert (store : Store) (items : List Item) (failAt : Option Nat) :
    Store × Except SqlFailure Nat :=
  match txGo failAt 0 store 0 items with
  | Except.error e => (store, Except.error e)
  | Except.ok p => (p.1, Except.ok p.2)

lemma txGo_ok (failAt : Option Nat) (items : List Item) :
    ∀ (i : Nat) (tx : Store) (acc : Nat),
      (∀ j, j < items.length → failAt ≠ some (i + j)) →
      txGo failAt i tx acc items =
        Except.ok ((kvInsertAll tx items).1, acc + (kvInsertAll tx items).2) := by
  induction items with
  | nil => intro i tx acc _; simp [txGo, kvInsertAll]
  | cons it rest ih =>
    intro i tx acc h
    have h0 : failAt ≠ some i := by
      have := h 0 (by simp)
      simpa using this
    simp only [txGo, if_neg h0]
    rw [ih (i + 1) _ _ (fun j hj => by
      have := h (j + 1) (by simp; omega)
      simpa [Nat.add_assoc, Nat.add_comm 1 j] using this)]
    simp [kvInsertAll, Nat.add_assoc]

/-- C9: `transact_insert` is atomic: when any individual upsert in the batch
fails the transaction is never committed and the published store is exactly
the pre-call store; when no upsert fails, all items are upserted sequentially
and the returned count is the sum of rows modified per item. -/
theorem transact_insert_atomic (store : Store) (items : List Item) (failAt : Option Nat) :
    ((transactInsert store items failAt).2.isOk = false →
      (transactInsert store items failAt).1 = store)
    ∧ ((∀ i, i < items.length → failAt ≠ some i) →
      transactInsert store items failAt =
        ((kvInsertAll store items).1, Except.ok (kvInsertAll store items).2)) := by
  constructor
  · intro h
    unfold transactInsert at h ⊢
    cases htx : txGo failAt 0 store 0 items with
    | error e => simp [htx]
    | ok p =>
      rw [htx] at h
      simp [Except.isOk, Except.toBool] at h
  · intro h
    unfold transactInsert
    rw [txGo_ok failAt items 0 store 0 (fun j hj => by simpa using h j hj)]
    simp

/-- Witness for C9: a one-item batch, failing at the first execute (state
unchanged) and running failure-free (item upserted, one row modified). -/
theorem transact_insert_atomic_w :
    ((transactInsert [] [⟨['a'], [1]⟩] (some 0)).1 = [])
    ∧ (transactInsert [] [⟨['a'], [1]⟩] none = ([⟨['a'], [1]⟩], Except.ok 1)) :=
  ⟨(transact_insert_atomic [] [⟨['a'], [1]⟩] (some 0)).1 (by decide),
   by
    have := (transact_insert_atomic [] [⟨['a'], [1]⟩] none).2
      (fun i _ => by simp)
    simpa [kvInsertAll, kvInsert] using this⟩

/-
Prefix scan: get_by_prefix / delete_by_prefix run `key LIKE ? ESCAPE '$'`
with the pattern `sanitize(key_prefix) + "%"`, where sanitize escapes the
LIKE wildcards: `string.replace('_', "$_").replace('%', "$%")`.
-/

/-- `str::replace` with a single-character needle: every occurrence of `c`
becomes `rep`, character by character. -/
def replaceChar (c : Char) (rep : List Char) : List Char → List Char
  | [] => []
  | x :: xs => (if x = c then rep else [x]) ++ replaceChar c rep xs

/-- `sanitize` from application.rs. -/
def sanitize (s : List Char) : List Char :=
  replaceChar '%' ['$', '%'] (replaceChar '_' ['$', '_'] s)

/-- The LIKE pattern both scan functions build: `sanitize(key_prefix)`
followed by `'%'`. -/
def likeQuery (p : List Char) : List Char := sanitize p ++ ['%']

/-- SQLite's default ASCII case folding: the LIKE operator compares
characters after mapping `A..Z` to lower case and leaving every other
character (including all non-ASCII ones) unchanged. -/
def foldChar (c : Char) : Char :=
  if 65 ≤ c.toNat ∧ c.toNat ≤ 90 then Char.ofNat (c.toNat + 32) else c

/-- Character comparison of SQLite's default LIKE: equal up to ASCII case. -/
def charEqCI (a b : Char) : Bool := decide (foldChar a = foldChar b)

/-- Case-insensitive comparison of a pattern character against the first
text character; false on empty text. -/
def headCI (p : Char) (ts : List Char) : Bool :=
  match ts with
  | [] => false
  | t :: _ => charEqCI p t

/-- Modelled from SQLite's documented LIKE semantics as invoked by
application.rs (`key LIKE pattern ESCAPE '$'`, no case_sensitive_like
pragma): `%` matches any character sequence (the rest of the pattern must
match some suffix of the text), `_` matches exactly one character, the
escape character `$` makes the following pattern character literal, a
trailing unpaired escape matches nothing, and literal characters compare
ASCII-case-insensitively. -/
def likeMatch : List Char → List Char → Bool
  | [], ts => ts.isEmpty
  | '%' :: ps, ts => ts.tails.any (fun ts2 => likeMatch ps ts2)
  | '$' :: q :: ps, ts => headCI q ts && likeMatch ps ts.tail
  | ['$'], _ => false
  | '_' :: ps, ts => !ts.isEmpty && likeMatch ps ts.tail
  | p :: ps, ts => headCI p ts && likeMatch ps ts.tail

/-- `get_by_prefix`: the rows whose key matches the built LIKE pattern, in
table order. -/
def getByPfx (store : Store) (p : List Char) : List Item :=
  store.filter (fun it => likeMatch (likeQuery p) it.key)

/-- `delete_by_prefix`: removes the rows whose key matches the built LIKE
pattern and returns how many were removed. -/
def deleteByPfx (store : Store) (p : List Char) : Store × Nat :=
  (store.filter (fun it => !likeMatch (likeQuery p) it.key),
   (store.filter (fun it => likeMatch (likeQuery p) it.key)).length)

/-- Literal byte-for-byte starts-with, the relation the claim describes. -/
def litStarts : List Char → List Char → Bool
  | [], _ => true
  | _ :: _, [] => false
  | p :: ps, t :: ts => decide (p = t) && litStarts ps ts

/-- ASCII-case-insensitive starts-with, the relation the scan implements for
escape-free prefixes. -/
def ciStarts : List Char → List Char → Bool
  | [], _ => true
  | _ :: _, [] => false
  | p :: ps, t :: ts => charEqCI p t && ciStarts ps ts

lemma likeMatch_pct_nil : ∀ ts : List Char, likeMatch ['%'] ts = true := by
  intro ts
  induction ts with
  | nil => rfl
  | cons t ts ih =>
    show (List.tails (t :: ts)).any (fun ts2 => likeMatch [] ts2) = true
    rw [List.tails]
    simp only [List.any_cons]
    have : (List.tails ts).any (fun ts2 => likeMatch [] ts2) = true := ih
    rw [this]
    simp

lemma sanitize_cons (c : Char) (p : List Char) :
    sanitize (c :: p) =
      (if c = '_' then ['$', '_'] else if c = '%' then ['$', '%'] else [c]) ++ sanitize p := by
  by_cases h1 : c = '_'
  · subst h1
    simp [sanitize, replaceChar]
  · by_cases h2 : c = '%'
    · subst h2
      simp [sanitize, replaceChar]
    · simp [sanitize, replaceChar, h1, h2]

lemma likeMatch_sanitize (p : List Char) (hp : '$' ∉ p) :
    ∀ ts, likeMatch (likeQuery p) ts = ciStarts p ts := by
  induction p with
  | nil =>
    intro ts
    simp [likeQuery, sanitize, replaceChar, likeMatch_pct_nil, ciStarts]
  | cons c p' ih =>
    intro ts
    have hc : c ≠ '$' := fun h => hp (h ▸ List.mem_cons_self c p')
    have hp' : '$' ∉ p' := fun h => hp (List.mem_cons_of_mem c h)
    have ihp := ih hp'
    rw [likeQuery, sanitize_cons]
    by_cases h1 : c = '_'
    · subst h1
      cases ts with
      | nil => simp [likeMatch, headCI, ciStarts]
      | cons t ts' =>
        simp [likeMatch, headCI, ciStarts, likeQuery] at ihp ⊢
        rw [ihp]
    · by_cases h2 : c = '%'
      · subst h2
        cases ts with
        | nil => simp [likeMatch, headCI, ciStarts]
        | cons t ts' =>
          simp [likeMatch, headCI, ciStarts, likeQuery] at ihp ⊢
          rw [ihp]
      · cases ts with
        | nil => simp [likeMatch, headCI, ciStarts, h1, h2, hc]
        | cons t ts' =>
          simp [likeMatch, headCI, ciStarts, likeQuery, h1, h2, hc] at ihp ⊢
          rw [ihp]

/-- C4 counterexample: prefix matching is not literal.  With the single row
`key = "$a"`, `get_by_prefix("$")` returns nothing although `"$a"` starts
with `"$"` (the unescaped `$` in the prefix becomes an escape that turns the
appended `%` into a literal); and with the single row `key = "Ab"`,
`get_by_prefix("a")` returns that row although `"Ab"` does not start with
`"a"` (SQLite LIKE is ASCII-case-insensitive by default). -/
theorem scan_not_literal_cex :
    getByPfx [⟨['$', 'a'], [0]⟩] ['$'] = []
    ∧ litStarts ['$'] ['$', 'a'] = true
    ∧ getByPfx [⟨['A', 'b'], [0]⟩] ['a'] = [⟨['A', 'b'], [0]⟩]
    ∧ litStarts ['a'] ['A', 'b'] = false := by
  refine ⟨?_, by decide, ?_, by decide⟩ <;> rfl

/-- C4 amended: for every stored set of items and every prefix string in
which the escape character `$` does not occur (wildcard characters `_` and
`%` are allowed and are matched literally), `get_by_prefix(prefix)` returns
exactly the items whose key starts with that prefix compared
ASCII-case-insensitively (SQLite LIKE's default collation), and
`delete_by_prefix(prefix)` removes exactly those items and reports their
count. -/
theorem scan_literal_ci (store : Store) (p : List Char) (hp : '$' ∉ p) :
    getByPfx store p = store.filter (fun it => ciStarts p it.key)
    ∧ (deleteByPfx store p).1 = store.filter (fun it => !ciStarts p it.key)
    ∧ (deleteByPfx store p).2 = (store.filter (fun it => ciStarts p it.key)).length := by
  have key := likeMatch_sanitize p hp
  refine ⟨?_, ?_, ?_⟩
  · unfold getByPfx
    exact List.filter_congr (fun (it : Item) _ => key it.key)
  · unfold deleteByPfx
    simp only
    exact List.filter_congr (fun (it : Item) _ => by rw [key it.key])
  · unfold deleteByPfx
    simp only
    rw [List.filter_congr (fun (it : Item) _ => key it.key)]

/-- Witness for C4's amended theorem: a two-row store and the wildcard
prefix `"_"`, which is escaped and so matches only the key that begins with
a literal underscore. -/
theorem scan_literal_ci_w :
    getByPfx [⟨['_', 'a'], [0]⟩, ⟨['x', 'a'], [1]⟩] ['_'] =
      List.filter (fun (it : Item) => ciStarts ['_'] it.key)
        [⟨['_', 'a'], [0]⟩, ⟨['x', 'a'], [1]⟩]
    ∧ (deleteByPfx [⟨['_', 'a'], [0]⟩, ⟨['x', 'a'], [1]⟩] ['_']).1 =
      List.filter (fun (it : Item) => !ciStarts ['_'] it.key)
        [⟨['_', 'a'], [0]⟩, ⟨['x', 'a'], [1]⟩]
    ∧ (deleteByPfx [⟨['_', 'a'], [0]⟩, ⟨['x', 'a'], [1]⟩] ['_']).2 =
      (List.filter (fun (it : Item) => ciStarts ['_'] it.key)
        [⟨['_', 'a'], [0]⟩, ⟨['x', 'a'], [1]⟩]).length :=
  scan_literal_ci [⟨['_', 'a'], [0]⟩, ⟨['x', 'a'], [1]⟩] ['_'] (by decide)

/-
CommitApplier (spec §3, §4.1, §4.4, §4.5).  The ratchet-tree core is not
among the sampled sources; everything below is modelled from the spec's
words.  The tree is the spec's array of 2n-1 slots for n leaf capacity
(even slot 2i = leaf i, odd slots = parents), kept here as the leaf column
and the parent column of that array; capacity stays a power of two because
it starts at 1 and growth always doubles it.  Keys, credentials and digests
are opaque numbers; the collision-resistant hash is a fixed injective-ish
numeric combiner (no claim below depends on its cryptographic strength).
-/

/-- Modelled from the spec: error kinds of §7 that the commit pipeline can
raise. -/
inductive TreeError where
  | invalidLeafIndex
  | invalidTreeStructure
  | credentialRejected
  | invalidParentHash
deriving DecidableEq

/-- Modelled from the spec: a non-blank leaf slot (§3): public encryption
key, public signature key, credential reference (capability set and
provenance tag carry no behavior any claim touches and are folded into the
credential reference). -/
structure LeafNode where
  encKey : Nat
  sigKey : Nat
  credential : Nat
deriving DecidableEq

/-- Modelled from the spec: a non-blank parent slot (§3): public encryption
key, parent-hash value, unmerged leaf indices. -/
structure ParentNode where
  encKey : Nat
  parentHash : Nat
  unmergedLeaves : List Nat
deriving DecidableEq

/-- Modelled from the spec: the array-backed tree (§3): `leaves` holds the
even slots (index i = slot 2i), `parents` the odd slots (index j = slot
2j+1); `none` is a blank slot. -/
structure RatchetTree where
  leaves : List (Option LeafNode)
  parents : List (Option ParentNode)
deriving DecidableEq

/-- Stand-in for the provider's collision-resistant hash over three
components. -/
def hash3 (a b c : Nat) : Nat :=
  (a + 1) * 7919 + (b + 1) * 104729 + (c + 1) * 1299709

/-- Direct path (§3): the ancestor parent slots of leaf slot `2*i`, from the
leaf's parent up to the root, computed by descending from the root slot
`n - 1` of a capacity-`n` (power-of-two) tree; a level-`k+1` parent at slot
`x` has children at slots `x - 2^k` and `x + 2^k`. -/
def pathDownAux : Nat → Nat → Nat → List Nat
  | 0, _, _ => []
  | k + 1, x, target =>
    x :: (if target < x then pathDownAux k (x - 2 ^ k) target
          else pathDownAux k (x + 2 ^ k) target)

def directPath (n i : Nat) : List Nat :=
  (pathDownAux (Nat.log2 n) (n - 1) (2 * i)).reverse

/-- Position of odd parent slot `x` in the parent column. -/
def parentPos (x : Nat) : Nat := (x - 1) / 2

/-- Public key stored at parent slot `x` (0 for a blank slot). -/
def parentKeyAt (t : RatchetTree) (x : Nat) : Nat :=
  match (t.parents.getD (parentPos x) none) with
  | none => 0
  | some pn => pn.encKey

/-- Tree hash (§4.4): recursive post-order hash; a leaf slot hashes its
content or a blank marker, a parent slot hashes its content or a blank
marker together with both children's hashes.  `k` is the level of slot
`x`. -/
def treeHashAux (t : RatchetTree) : Nat → Nat → Nat
  | 0, x =>
    match (t.leaves.getD (x / 2) none) with
    | none => hash3 0 x 0
    | some l => hash3 1 x (hash3 l.encKey l.sigKey l.credential)
  | k + 1, x =>
    let sub := hash3 (treeHashAux t k (x - 2 ^ k)) (treeHashAux t k (x + 2 ^ k)) 0
    match (t.parents.getD (parentPos x) none) with
    | none => hash3 2 0 sub
    | some pn => hash3 3 (hash3 pn.encKey pn.parentHash 0) sub

/-- Store a parent-hash value on the (non-blank) parent at slot `x`. -/
def setPH (t : RatchetTree) (x : Nat) (v : Nat) : RatchetTree :=
  ⟨t.leaves,
   t.parents.set (parentPos x)
     (match (t.parents.getD (parentPos x) none) with
      | none => none
      | some pn => some ⟨pn.encKey, v, pn.unmergedLeaves⟩)⟩

/-- Parent-hash recomputation along a path (§4.4, §4.5 step 4): walking from
the root (whose own parent hash input is the empty placeholder 0) down
toward the target leaf slot, each parent stores
`hash3 (its key) (its parent's chain value) (tree hash of its sibling)`. -/
def phDown (t : RatchetTree) : Nat → Nat → Nat → Nat → RatchetTree
  | 0, _, _, _ => t
  | k + 1, x, target, acc =>
    let t1 := setPH t x acc
    let child := if target < x then x - 2 ^ k else x + 2 ^ k
    let sib := if target < x then x + 2 ^ k else x - 2 ^ k
    phDown t1 k child target (hash3 (parentKeyAt t1 child) acc (treeHashAux t1 k sib))

def recomputeParentHashes (t : RatchetTree) (c : Nat) : RatchetTree :=
  let n := t.leaves.length
  let k := Nat.log2 n
  if k = 0 then t
  else phDown t k (n - 1) (2 * c) (hash3 (parentKeyAt t (n - 1)) 0 0)

/-- Parent-hash chain check along one leaf's direct path, from the root
downward (§4.4): every non-blank parent on the path must store the chain
value recomputed the same way `phDown` produces it. -/
def chainCheckAux (t : RatchetTree) : Nat → Nat → Nat → Nat → Bool
  | 0, _, _, _ => true
  | k + 1, x, target, acc =>
    let here :=
      match (t.parents.getD (parentPos x) none) with
      | none => true
      | some pn => decide (pn.parentHash = acc)
    let child := if target < x then x - 2 ^ k else x + 2 ^ k
    let sib := if target < x then x + 2 ^ k else x - 2 ^ k
    here && chainCheckAux t k child target
      (hash3 (parentKeyAt t child) acc (treeHashAux t k sib))

def chainCheck (t : RatchetTree) (i : Nat) : Bool :=
  let n := t.leaves.length
  let k := Nat.log2 n
  if k = 0 then true
  else chainCheckAux t k (n - 1) (2 * i) (hash3 (parentKeyAt t (n - 1)) 0 0)

/-- `verify_parent_hashes` (§4.4): recompute the chain along every non-blank
leaf's direct path and confirm every stored assertion on it. -/
def verifyParentHashes (t : RatchetTree) : Bool :=
  (List.range t.leaves.length).all (fun i =>
    match (t.leaves.getD i none) with
    | none => true
    | some _ => chainCheck t i)

/-- Trimming after removal (§4.1): while the entire upper half-tree is
blank (and at least two leaf slots exist), capacity is halved; the fuel is
an upper bound on how often halving can happen. -/
def trimTreeAux : Nat → RatchetTree → RatchetTree
  | 0, t => t
  | fuel + 1, t =>
    let n := t.leaves.length
    if 2 ≤ n then
      if (t.leaves.drop (n / 2)).all (fun lo => lo.isNone)
          && (t.parents.drop (n / 2 - 1)).all (fun po => po.isNone) then
        trimTreeAux fuel ⟨t.leaves.take (n / 2), t.parents.take (n / 2 - 1)⟩
      else t
    else t

def trimTree (t : RatchetTree) : RatchetTree := trimTreeAux t.leaves.length t

/-- `remove_leaf` (§4.1): fails with `InvalidLeafIndex` when the slot is out
of range or already blank; otherwise blanks the leaf slot and its ancestor
parent slots (clearing the bookkeeping that referred to the removed member)
and trims trailing blank half-trees. -/
def removeLeaf (t : RatchetTree) (i : Nat) : Except TreeError RatchetTree :=
  match (t.leaves.getD i none) with
  | none => Except.error TreeError.invalidLeafIndex
  | some _ =>
    let leaves1 := t.leaves.set i none
    let parents1 := (directPath t.leaves.length i).foldl
      (fun ps x => ps.set (parentPos x) none) t.parents
    Except.ok (trimTree ⟨leaves1, parents1⟩)

/-- Index of the first blank leaf slot. -/
def firstBlank : List (Option LeafNode) → Option Nat
  | [] => none
  | none :: _ => some 0
  | some _ :: rest => (firstBlank rest).map (fun j => j + 1)

/-- Record leaf `i` as unmerged on every non-blank ancestor parent (§4.1
`add_leaf` side effect). -/
def markUnmerged (t : RatchetTree) (i : Nat) : RatchetTree :=
  ⟨t.leaves,
   (directPath t.leaves.length i).foldl
     (fun ps x =>
       ps.set (parentPos x)
         ((ps.getD (parentPos x) none).map
           (fun pn => ⟨pn.encKey, pn.parentHash, pn.unmergedLeaves ++ [i]⟩)))
     t.parents⟩

/-- `add_leaf` (§4.1): occupy the first blank leaf slot, or double the
capacity and occupy the first new slot; every ancestor on the new leaf's
direct path gains the new index in its unmerged set.  Returns the grown
tree and the assigned leaf index. -/
def addLeaf (t : RatchetTree) (l : LeafNode) : RatchetTree × Nat :=
  match firstBlank t.leaves with
  | some i => (markUnmerged ⟨t.leaves.set i (some l), t.parents⟩ i, i)
  | none =>
    let n := t.leaves.length
    let grown : RatchetTree :=
      ⟨(t.leaves ++ List.replicate n none).set n (some l),
       t.parents ++ List.replicate n none⟩
    (markUnmerged grown n, n)

/-- `update` proposal (§4.5 step 2): replace a non-blank leaf's own node
without path-secret distribution; out-of-range or blank slots are
malformed. -/
def updateLeaf (t : RatchetTree) (i : Nat) (l : LeafNode) : Except TreeError RatchetTree :=
  match (t.leaves.getD i none) with
  | none => Except.error TreeError.invalidLeafIndex
  | some _ => Except.ok ⟨t.leaves.set i (some l), t.parents⟩

/-- Modelled from the spec: a membership-change proposal (§4.5). -/
inductive Proposal where
  | add (l : LeafNode)
  | remove (i : Nat)
  | update (i : Nat) (l : LeafNode)
deriving DecidableEq

def isRemoveP : Proposal → Bool
  | Proposal.remove _ => true
  | _ => false

def isAddP : Proposal → Bool
  | Proposal.add _ => true
  | _ => false

def isUpdateP : Proposal → Bool
  | Proposal.update _ _ => true
  | _ => false

/-- §4.5 step 2 ordering: removes first, then adds, then updates, each batch
keeping its relative order. -/
def orderProposals (ps : List Proposal) : List Proposal :=
  ps.filter isRemoveP ++ ps.filter isAddP ++ ps.filter isUpdateP

/-- One proposal against the working copy; `valid` is the external
credential validator consulted on every add/update (§4.5, §6). -/
def applyProposal (valid : Nat → Bool) (t : RatchetTree) : Proposal → Except TreeError RatchetTree
  | Proposal.remove i => removeLeaf t i
  | Proposal.add l =>
    if valid l.credential then Except.ok (addLeaf t l).1
    else Except.error TreeError.credentialRejected
  | Proposal.update i l =>
    if valid l.credential then updateLeaf t i l
    else Except.error TreeError.credentialRejected

def applyProposals (valid : Nat → Bool) : RatchetTree → List Proposal → Except TreeError RatchetTree
  | t, [] => Except.ok t
  | t, p :: rest =>
    match applyProposal valid t p with
    | Except.error e => Except.error e
    | Except.ok t' => applyProposals valid t' rest

/-- §4.5 step 3: install the committer's fresh parent public keys along the
committer's direct path, clearing the unmerged sets the new keys now cover;
parent hashes are recomputed in the following step.  A blank or out-of-range
committer leaf is invalid, and the path must carry exactly one key per
ancestor level. -/
def applyPath (t : RatchetTree) (c : Nat) (keys : List Nat) : Except TreeError RatchetTree :=
  match (t.leaves.getD c none) with
  | none => Except.error TreeError.invalidLeafIndex
  | some _ =>
    let path := directPath t.leaves.length c
    if keys.length = path.length then
      Except.ok ⟨t.leaves,
        (path.zip keys).foldl
          (fun ps xv => ps.set (parentPos xv.1) (some ⟨xv.2, 0, []⟩)) t.parents⟩
    else Except.error TreeError.invalidTreeStructure

/-- Modelled from the spec: `apply_commit` (§4.5): on a working copy, apply
the ordered proposals (removes, adds, updates), then the committer's path
update, then recompute parent hashes along the updated path, and accept the
working copy only if `verify_parent_hashes` passes on the full tree. -/
def applyCommit (valid : Nat → Bool) (t : RatchetTree) (props : List Proposal)
    (c : Nat) (keys : List Nat) : Except TreeError RatchetTree :=
  match applyProposals valid t (orderProposals props) with
  | Except.error e => Except.error e
  | Except.ok t1 =>
    match applyPath t1 c keys with
    | Except.error e => Except.error e
    | Except.ok t2 =>
      let t3 := recomputeParentHashes t2 c
      if verifyParentHashes t3 = true then Except.ok t3
      else Except.error TreeError.invalidParentHash

/-- The member's published state after a commit attempt: the validated
working copy on success, the untouched prior instance on failure (§3
lifecycle, §4.5). -/
def commitStep (valid : Nat → Bool) (t : RatchetTree) (props : List Proposal)
    (c : Nat) (keys : List Nat) : RatchetTree × Option TreeError :=
  match applyCommit valid t props c keys with
  | Except.ok t' => (t', none)
  | Except.error e => (t, some e)

lemma applyCommit_ok_verified (valid : Nat → Bool) (t : RatchetTree)
    (props : List Proposal) (c : Nat) (keys : List Nat) (t' : RatchetTree)
    (h : applyCommit valid t props c keys = Except.ok t') :
    verifyParentHashes t' = true := by
  unfold applyCommit at h
  split at h
  · exact absurd h (by simp)
  · split at h
    · exact absurd h (by simp)
    · dsimp only at h
      split at h
      · cases h
        assumption
      · exact absurd h (by simp)

/-- C6: commit application is atomic over the ratchet tree: for every tree
state, proposal batch, committer and path update, either `apply_commit`
fails — with any of the pipeline's errors, a malformed proposal, a rejected
credential, a bad path or `InvalidParentHash` — and the published instance
is exactly the prior tree, or it succeeds and the published instance is the
fully validated working copy (in particular one on which
`verify_parent_hashes` holds). -/
theorem apply_commit_atomic (valid : Nat → Bool) (t : RatchetTree)
    (props : List Proposal) (c : Nat) (keys : List Nat) :
    (∃ e, applyCommit valid t props c keys = Except.error e
      ∧ commitStep valid t props c keys = (t, some e))
    ∨ (∃ t', applyCommit valid t props c keys = Except.ok t'
      ∧ commitStep valid t props c keys = (t', none)
      ∧ verifyParentHashes t' = true) := by
  cases h : applyCommit valid t props c keys with
  | error e =>
    left
    exact ⟨e, rfl, by unfold commitStep; rw [h]⟩
  | ok t' =>
    right
    exact ⟨t', rfl, by unfold commitStep; rw [h],
      applyCommit_ok_verified valid t props c keys t' h⟩

end Mls
